import Mathlib

/-!
Verification of the iati3w-data pipeline (`iati3w_common.py`,
`index-locations.py`) against its natural-language specification.

The Python sources are shallowly embedded: strings are Lean `String`s
over their character lists, Python `dict`s become association lists
with first-match lookup and the exact `d[k] = v` / `d.setdefault(k, v)`
update semantics, and the two scripts' functions become pure Lean
functions parameterised by the JSON datasets they load (the datasets
are opaque inputs per the spec).
-/

namespace Iati3w

/-! ### Character-level facts about the Lean core functions used in the
embedding (`Char.toLower` models Python `str.lower` on ASCII). -/

theorem toNat_ofNat_valid (n : Nat) (h : n.isValidChar) : (Char.ofNat n).toNat = n := by
  rw [Char.ofNat, dif_pos h]
  simp [Char.ofNatAux, Char.toNat, UInt32.toNat]

theorem char_toNat_inj (c d : Char) : c.toNat = d.toNat ↔ c = d := by
  constructor
  · intro h
    exact Char.ext (UInt32.toNat.inj h)
  · intro h
    rw [h]

theorem isUpper_iff (c : Char) : c.isUpper = true ↔ 65 ≤ c.toNat ∧ c.toNat ≤ 90 := by
  simp [Char.isUpper, Char.toNat, UInt32.le_def, BitVec.le_def, UInt32.toNat]

theorem toNat_toLower (c : Char) :
    (c.toLower).toNat = if 65 ≤ c.toNat ∧ c.toNat ≤ 90 then c.toNat + 32 else c.toNat := by
  unfold Char.toLower
  by_cases h : 65 ≤ c.toNat ∧ c.toNat ≤ 90
  · rw [if_pos (by omega), if_pos h]
    exact toNat_ofNat_valid _ (Or.inl (by omega))
  · rw [if_neg (by omega), if_neg h]

theorem isAlphanum_iff (c : Char) : c.isAlphanum = true ↔
    (48 ≤ c.toNat ∧ c.toNat ≤ 57) ∨ (65 ≤ c.toNat ∧ c.toNat ≤ 90) ∨
    (97 ≤ c.toNat ∧ c.toNat ≤ 122) := by
  simp [Char.isAlphanum, Char.isAlpha, Char.isUpper, Char.isLower, Char.isDigit,
    Char.toNat, UInt32.le_def, BitVec.le_def, UInt32.toNat]
  omega

theorem isWhitespace_iff (c : Char) : c.isWhitespace = true ↔
    c.toNat = 32 ∨ c.toNat = 9 ∨ c.toNat = 13 ∨ c.toNat = 10 := by
  simp only [Char.isWhitespace, Bool.or_eq_true, decide_eq_true_eq, ← char_toNat_inj]
  norm_num [show (' ' : Char).toNat = 32 from rfl, show ('\t' : Char).toNat = 9 from rfl,
    show ('\r' : Char).toNat = 13 from rfl, show ('\n' : Char).toNat = 10 from rfl]
  tauto

theorem toLower_not_upper (c : Char) : (c.toLower).isUpper = false := by
  rw [Bool.eq_false_iff]
  intro hc
  rw [isUpper_iff] at hc
  rw [toNat_toLower] at hc
  by_cases h : 65 ≤ c.toNat ∧ c.toNat ≤ 90
  · rw [if_pos h] at hc
    omega
  · rw [if_neg h] at hc
    omega

theorem toLower_eq_self (c : Char) (h : c.isUpper = false) : c.toLower = c := by
  rw [← char_toNat_inj, toNat_toLower, if_neg]
  intro hc
  rw [Bool.eq_false_iff] at h
  exact h (by rw [isUpper_iff]; omega)

/-! ### Text normalizer (`iati3w_common.py`, lines 42-63)

`make_token` embeds `re.sub(r'\W+', ' ', s).lower().strip()`;
`normalise_string` embeds `re.sub(r'\s+', ' ', s.strip())` with the
`None`-for-falsy-input convention; `strip` embeds Python `str.strip()`.
All operate on the ASCII fragment (Lean's `Char` classifiers). -/

/-- Python word character for the `\W` class (ASCII fragment): `[a-zA-Z0-9_]`. -/
def isWordChar (c : Char) : Bool := c.isAlphanum || c == '_'

/-- Replace every maximal run of non-word characters with a single space:
`re.sub(r'\W+', ' ', s)` on the character list. The flag records whether
the previous character was part of a non-word run already replaced. -/
def squashNonWord (inRun : Bool) : List Char → List Char
  | [] => []
  | c :: cs =>
    if isWordChar c then c :: squashNonWord false cs
    else if inRun then squashNonWord true cs
    else ' ' :: squashNonWord true cs

/-- Collapse every maximal whitespace run to one space: `re.sub(r'\s+', ' ', s)`. -/
def collapseWS (inRun : Bool) : List Char → List Char
  | [] => []
  | c :: cs =>
    if c.isWhitespace then
      if inRun then collapseWS true cs else ' ' :: collapseWS true cs
    else c :: collapseWS false cs

/-- Remove leading and trailing whitespace from a character list. -/
def trimList (l : List Char) : List Char :=
  ((l.dropWhile Char.isWhitespace).reverse.dropWhile Char.isWhitespace).reverse

/-- Python `str.strip()`. -/
def strip (s : String) : String := ⟨trimList s.toList⟩

/-- Source `make_token` (iati3w_common.py line 52):
`re.sub(r'\W+', ' ', s).lower().strip()`. -/
def make_token (s : String) : String :=
  ⟨trimList ((squashNonWord false s.toList).map Char.toLower)⟩

/-- Source `normalise_string` (iati3w_common.py line 42): returns `None`
for a falsy argument, else `re.sub(r'\s+', ' ', s.strip())`. -/
def normalise_string (s : String) : Option String :=
  if s = "" then none
  else some ⟨collapseWS false (trimList s.toList)⟩

/-- Empty-detection predicate of `hxl.datatypes.is_empty` on strings
(external collaborator of the source): a string is empty when it is `""`
or consists of whitespace only. -/
def is_empty (s : String) : Bool := s.toList.all Char.isWhitespace

/-! ### Python dict model

Association lists with first-match lookup. `dset` is `d[k] = v`
(replace in place, else append), `dsetdefault` is `d.setdefault(k, v)`,
`dget` is `d.get(k, v)`, and `dincr` is the
`d.setdefault(k, 0); d[k] += 1` counter idiom of `index-locations.py`. -/

def dset {α : Type} : List (String × α) → String → α → List (String × α)
  | [], k, v => [(k, v)]
  | (k', v') :: d, k, v =>
    if k' = k then (k, v) :: d else (k', v') :: dset d k v

def dsetdefault {α : Type} : List (String × α) → String → α → List (String × α)
  | [], k, v => [(k, v)]
  | (k', v') :: d, k, v =>
    if k' = k then (k', v') :: d else (k', v') :: dsetdefault d k v

def dget {α : Type} (d : List (String × α)) (k : String) (v : α) : α :=
  (d.lookup k).getD v

def dincr (d : List (String × Nat)) (k : String) : List (String × Nat) :=
  let d := dsetdefault d k 0
  dset d k (dget d k 0 + 1)

theorem lookup_ne_cons {α : Type} (d : List (String × α)) (k k' : String) (v' : α)
    (h : k ≠ k') : (((k', v') :: d).lookup k) = d.lookup k := by
  rw [List.lookup_cons]
  have hb : (k == k') = false := beq_eq_false_iff_ne.mpr h
  rw [hb]

theorem lookup_dset_self {α : Type} (d : List (String × α)) (k : String) (v : α) :
    (dset d k v).lookup k = some v := by
  induction d with
  | nil => simp [dset]
  | cons p d ih =>
    obtain ⟨k', v'⟩ := p
    by_cases h : k' = k
    · simp [dset, h]
    · rw [dset, if_neg h, lookup_ne_cons _ _ _ _ (Ne.symm h)]
      exact ih

theorem lookup_dset_ne {α : Type} (d : List (String × α)) (k k' : String) (v : α)
    (h : k' ≠ k) : (dset d k v).lookup k' = d.lookup k' := by
  induction d with
  | nil => simp [dset, lookup_ne_cons _ _ _ _ h]
  | cons p d ih =>
    obtain ⟨k'', v''⟩ := p
    by_cases hk : k'' = k
    · subst hk
      rw [dset, if_pos rfl, lookup_ne_cons _ _ _ _ h, lookup_ne_cons _ _ _ _ h]
    · rw [dset, if_neg hk]
      by_cases hk' : k' = k''
      · subst hk'
        simp
      · rw [lookup_ne_cons _ _ _ _ hk', lookup_ne_cons _ _ _ _ hk']
        exact ih

theorem lookup_dsetdefault_self {α : Type} (d : List (String × α)) (k : String) (v : α) :
    (dsetdefault d k v).lookup k = some ((d.lookup k).getD v) := by
  induction d with
  | nil => simp [dsetdefault]
  | cons p d ih =>
    obtain ⟨k', v'⟩ := p
    by_cases h : k' = k
    · subst h
      simp [dsetdefault]
    · rw [dsetdefault, if_neg h, lookup_ne_cons _ _ _ _ (Ne.symm h),
        lookup_ne_cons _ _ _ _ (Ne.symm h)]
      exact ih

theorem lookup_dsetdefault_ne {α : Type} (d : List (String × α)) (k k' : String) (v : α)
    (h : k' ≠ k) : (dsetdefault d k v).lookup k' = d.lookup k' := by
  induction d with
  | nil => simp [dsetdefault, lookup_ne_cons _ _ _ _ h]
  | cons p d ih =>
    obtain ⟨k'', v''⟩ := p
    by_cases hk : k'' = k
    · subst hk
      rw [dsetdefault, if_pos rfl]
    · rw [dsetdefault, if_neg hk]
      by_cases hk' : k' = k''
      · subst hk'
        simp
      · rw [lookup_ne_cons _ _ _ _ hk', lookup_ne_cons _ _ _ _ hk']
        exact ih

theorem mem_dset {α : Type} (d : List (String × α)) (k : String) (v : α) (p : String × α)
    (hp : p ∈ dset d k v) : p = (k, v) ∨ p ∈ d := by
  induction d with
  | nil => simpa [dset] using hp
  | cons q d ih =>
    obtain ⟨k', v'⟩ := q
    by_cases h : k' = k
    · rw [dset, if_pos h] at hp
      rcases List.mem_cons.mp hp with h1 | h1
      · exact Or.inl h1
      · exact Or.inr (List.mem_cons_of_mem _ h1)
    · rw [dset, if_neg h] at hp
      rcases List.mem_cons.mp hp with h1 | h1
      · exact Or.inr (h1 ▸ List.mem_cons_self _ _)
      · rcases ih h1 with h2 | h2
        · exact Or.inl h2
        · exact Or.inr (List.mem_cons_of_mem _ h2)

theorem mem_dsetdefault {α : Type} (d : List (String × α)) (k : String) (v : α)
    (p : String × α) (hp : p ∈ dsetdefault d k v) : p = (k, v) ∨ p ∈ d := by
  induction d with
  | nil => simpa [dsetdefault] using hp
  | cons q d ih =>
    obtain ⟨k', v'⟩ := q
    by_cases h : k' = k
    · rw [dsetdefault, if_pos h] at hp
      exact Or.inr hp
    · rw [dsetdefault, if_neg h] at hp
      rcases List.mem_cons.mp hp with h1 | h1
      · exact Or.inr (h1 ▸ List.mem_cons_self _ _)
      · rcases ih h1 with h2 | h2
        · exact Or.inl h2
        · exact Or.inr (List.mem_cons_of_mem _ h2)

theorem lookup_dincr_self (d : List (String × Nat)) (k : String) :
    (dincr d k).lookup k = some ((d.lookup k).getD 0 + 1) := by
  unfold dincr
  rw [lookup_dset_self, dget, lookup_dsetdefault_self]
  rfl

theorem lookup_dincr_ne (d : List (String × Nat)) (k k' : String) (h : k' ≠ k) :
    (dincr d k).lookup k' = d.lookup k' := by
  unfold dincr
  rw [lookup_dset_ne _ _ _ _ h, lookup_dsetdefault_ne _ _ _ _ h]

theorem lookup_mem {α : Type} (d : List (String × α)) (k : String) (v : α)
    (h : d.lookup k = some v) : (k, v) ∈ d := by
  induction d with
  | nil => simp at h
  | cons p d ih =>
    obtain ⟨k', v'⟩ := p
    by_cases hk : k = k'
    · subst hk
      simp at h
      exact h ▸ List.mem_cons_self _ _
    · rw [lookup_ne_cons _ _ _ _ hk] at h
      exact List.mem_cons_of_mem _ (ih h)

/-- Fold invariant preservation: an invariant preserved by every step over
elements of the list is preserved by `List.foldl`. -/
theorem foldl_inv {α β : Type} (P : β → Prop) (f : β → α → β) :
    ∀ (l : List α) (b : β), P b → (∀ b' x, x ∈ l → P b' → P (f b' x)) →
      P (l.foldl f b) := by
  intro l
  induction l with
  | nil => intro b hb _; exact hb
  | cons x l ih =>
    intro b hb hstep
    exact ih (f b x) (hstep b x (List.mem_cons_self _ _) hb)
      (fun b' y hy => hstep b' y (List.mem_cons_of_mem _ hy))

/-! ### Classification keys (`iati3w_common.py`, lines 12-15) -/

def ROLES : List String := ["implementing", "programming", "funding"]

def SCOPES : List String := ["local", "regional", "international", "unknown"]

def SECTOR_TYPES : List String := ["dac", "humanitarian"]

def LOCATION_TYPES : List String := ["admin1", "admin2", "unclassified"]

/-! ### Organization lookup (`iati3w_common.py`, lines 97-133)

The reference dataset `inputs/org-map.json` is an opaque input (spec
section 1), so the functions are parameterised by the parsed map. -/

/-- Entry of the organization map: a JSON object with optional `name`
and `scope` fields and an optional `synonyms` list (absent list modelled
as `[]`, matching the source's `info.get("synonyms", [])`). -/
structure OrgInfo where
  name : Option String := none
  scope : Option String := none
  synonyms : List String := []
deriving DecidableEq

/-- Parsed `inputs/org-map.json`: canonical key to entry, in file order. -/
abbrev OrgMap := List (String × OrgInfo)

/-- Source `get_lookup_table` (iati3w_common.py line 97): insert the
tokenized primary key by assignment, then the tokenized `name` and every
tokenized synonym by `setdefault`. -/
def get_lookup_table (map : OrgMap) : List (String × OrgInfo) :=
  map.foldl (fun result p =>
    let result := dset result (make_token p.1) p.2
    let result := match p.2.name with
      | some n => dsetdefault result (make_token n) p.2
      | none => result
    p.2.synonyms.foldl (fun r synonym =>
      dsetdefault r (make_token synonym) p.2) result) []

/-- Source `lookup_org` (iati3w_common.py line 116). The second component
collects the lines printed to `sys.stderr`. -/
def lookup_org (map : OrgMap) (name : Option String) : Option OrgInfo × List String :=
  match name with
  | none => (none, [])
  | some s =>
    if is_empty s then (none, [])
    else
      let token := make_token s
      let table := get_lookup_table map
      match table.lookup token with
      | some info => (some info, [])
      | none =>
        (some { name := normalise_string s, scope := some "unknown", synonyms := [] },
         ["Failed lookup |" ++ token ++ "|"])

/-! ### Location lookup (`iati3w_common.py`, lines 142-196)

`inputs/location-map.json` is a three-level hierarchy: regions containing
districts (under `admin2`) containing unclassified sites (under
`unclassified`), each level with optional synonyms. -/

structure SiteInfo where
  name : String
  synonyms : List String := []
deriving DecidableEq

structure DistrictInfo where
  name : String
  synonyms : List String := []
  unclassified : List (String × SiteInfo) := []
deriving DecidableEq

structure RegionInfo where
  name : String
  synonyms : List String := []
  admin2 : List (String × DistrictInfo) := []
deriving DecidableEq

/-- Parsed `inputs/location-map.json`: region key to region, in file order. -/
abbrev LocationMap := List (String × RegionInfo)

/-- Value stored in the flattened location lookup table. Region entries
are the region objects themselves; district and site entries carry the
ancestor display names stamped by the source (`info2["admin1"] =
info1["name"]` and so on); `fallback` is the synthesized record
`{"level": loctype, "name": normalise_string(name)}` built on a miss. -/
inductive LocEntry where
  | region (info : RegionInfo)
  | district (info : DistrictInfo) (admin1 : String)
  | site (info : SiteInfo) (admin1 : String) (admin2 : String)
  | fallback (level : String) (name : Option String)
deriving DecidableEq

/-- Innermost loop body of `get_location_lookup_table`
(iati3w_common.py lines 164-172): insert one unclassified site `r` of a
district, stamped with its ancestors' display names (`info3["admin1"] =
info1["name"]`, `info3["admin2"] = info2["name"]`), by `setdefault`,
then each of its synonyms by `setdefault`. -/
def addSite (admin1 admin2 : String) (table : List (String × LocEntry))
    (r : String × SiteInfo) : List (String × LocEntry) :=
  r.2.synonyms.foldl
    (fun table name4 => dsetdefault table (make_token name4) (LocEntry.site r.2 admin1 admin2))
    (dsetdefault table (make_token r.1) (LocEntry.site r.2 admin1 admin2))

/-- Middle loop body of `get_location_lookup_table` (iati3w_common.py
lines 158-176): insert one district `q` of region `info1`, stamped with
`admin1 = info1["name"]`, by `setdefault`; then its unclassified sites;
then its synonyms by `setdefault`. -/
def addDistrict (info1 : RegionInfo) (table : List (String × LocEntry))
    (q : String × DistrictInfo) : List (String × LocEntry) :=
  q.2.synonyms.foldl
    (fun table name3 => dsetdefault table (make_token name3) (LocEntry.district q.2 info1.name))
    (q.2.unclassified.foldl (addSite info1.name q.2.name)
      (dsetdefault table (make_token q.1) (LocEntry.district q.2 info1.name)))

/-- Outer loop body of `get_location_lookup_table` (iati3w_common.py
lines 151-180): insert the region token by plain assignment
(`location_lookup_table[token1] = info1`, an overwrite); then the
districts; then the region synonyms by `setdefault`. -/
def addRegion (table : List (String × LocEntry)) (p : String × RegionInfo) :
    List (String × LocEntry) :=
  p.2.synonyms.foldl
    (fun table name2 => dsetdefault table (make_token name2) (LocEntry.region p.2))
    (p.2.admin2.foldl (addDistrict p.2)
      (dset table (make_token p.1) (LocEntry.region p.2)))

/-- Source `get_location_lookup_table` (iati3w_common.py line 142):
fold the per-region loop body over the dataset in order, starting from
the empty table. -/
def get_location_lookup_table (map : LocationMap) : List (String × LocEntry) :=
  map.foldl addRegion []

/-- Source `lookup_location` (iati3w_common.py line 185). -/
def lookup_location (map : LocationMap) (name : Option String)
    (loctype : String := "unclassified") : Option LocEntry :=
  match name with
  | none => none
  | some s =>
    if is_empty s then none
    else some (((get_location_lookup_table map).lookup (make_token s)).getD
      (LocEntry.fallback loctype (normalise_string s)))

/-! ### Index aggregator (`index-locations.py`)

The main loop of the script, as a pure function of the parsed activity
list. Python mutation of `index[loctype]` / `entry` in place becomes
read-modify-write on the association lists. -/

structure ActivityRef where
  identifier : String
  title : String
  source : String
deriving DecidableEq

structure Activity where
  identifier : String
  title : String
  source : String
  locations : List (String × List String) := []
  orgs : List (String × List String) := []
  sectors : List (String × List String) := []
deriving DecidableEq

structure IndexEntry where
  activities : List ActivityRef := []
  orgs : List (String × Nat) := []
  sectors : List (String × List (String × Nat)) := []
deriving DecidableEq

/-- Default record inserted on first sight of a location
(index-locations.py lines 55-59). -/
def emptyEntry : IndexEntry := {}

/-- Whole-script index type: location type to location string to entry. -/
abbrev Index := List (String × List (String × IndexEntry))

/-- Org-counting inner loops (index-locations.py lines 72-78): for every
recognized role, skip falsy org strings, strip, and bump the counter. -/
def orgsAdd (a : Activity) (orgs : List (String × Nat)) : List (String × Nat) :=
  ROLES.foldl (fun orgs role =>
    (dget a.orgs role []).foldl (fun orgs org =>
      if org = "" then orgs else dincr orgs (strip org)) orgs) orgs

/-- Sector-counting inner loops (index-locations.py lines 81-88). -/
def sectorsAdd (a : Activity) (sectors : List (String × List (String × Nat))) :
    List (String × List (String × Nat)) :=
  SECTOR_TYPES.foldl (fun sectors type =>
    let sectors := dsetdefault sectors type []
    dset sectors type ((dget a.sectors type []).foldl (fun m sector =>
      if sector = "" then m else dincr m (strip sector)) (dget sectors type []))) sectors

/-- Per-location body of the main loop (index-locations.py lines 62-88):
append the activity stub, add orgs, add sectors. -/
def updateEntry (a : Activity) (entry : IndexEntry) : IndexEntry :=
  { entry with
    activities := entry.activities ++
      [{ identifier := a.identifier, title := a.title, source := a.source }],
    orgs := orgsAdd a entry.orgs,
    sectors := sectorsAdd a entry.sectors }

/-- One raw location string of the current type (index-locations.py
lines 45-62): skip falsy, strip, setdefault the entry, update it. -/
def processLocation (a : Activity) (sub : List (String × IndexEntry))
    (location : String) : List (String × IndexEntry) :=
  if location = "" then sub
  else
    let location := strip location
    let sub := dsetdefault sub location emptyEntry
    dset sub location (updateEntry a (dget sub location emptyEntry))

/-- One location type of one activity (index-locations.py lines 37-45):
`index.setdefault(loctype, {})`, then the per-location loop over
`activity["locations"].get(loctype, [])` mutating `index[loctype]`. -/
def processLoctype (a : Activity) (index : Index) (loctype : String) : Index :=
  let index := dsetdefault index loctype []
  dset index loctype
    ((dget a.locations loctype []).foldl (processLocation a) (dget index loctype []))

/-- The whole script: fold the per-activity loop (which iterates
`LOCATION_TYPES`) over the activity list, starting from the empty index. -/
def buildIndex (activities : List Activity) : Index :=
  activities.foldl (fun index a => LOCATION_TYPES.foldl (processLoctype a) index) []

/-- Occurrence count used to state the aggregation claims: the number of
non-falsy raw strings in `l` that strip to `k` (the strings the main
loop does not skip and files under key `k`). -/
def cntRaw (l : List String) (k : String) : Nat :=
  (l.filter (fun s => !(s == "") && (strip s == k))).length

/-- Occurrences of org name `o` (after strip) across all recognized
roles of activity `a`. -/
def cntOrg (a : Activity) (o : String) : Nat :=
  (ROLES.map (fun role => cntRaw (dget a.orgs role []) o)).sum

/-! ### Claim C4: `lookup_location` null and fallback behaviour -/

/-- C4: for every empty or blank input name (null, empty string,
whitespace-only string) `lookup_location` returns null; for every
non-blank name, on a table hit it returns the matched entry unmodified,
and on a miss it returns the synthesized entry
`{level: fallback_type, name: normalise_string(name)}` rather than an error. -/
theorem C4_lookup_location_contract (map : LocationMap) (name : Option String)
    (lt : String) :
    (name = none → lookup_location map name lt = none)
    ∧ (∀ s, name = some s → is_empty s = true → lookup_location map name lt = none)
    ∧ (∀ s, name = some s → is_empty s = false →
        (∀ e, (get_location_lookup_table map).lookup (make_token s) = some e →
          lookup_location map name lt = some e)
        ∧ ((get_location_lookup_table map).lookup (make_token s) = none →
          lookup_location map name lt =
            some (LocEntry.fallback lt (normalise_string s)))) := by
  refine ⟨?_, ?_, ?_⟩
  · intro h
    subst h
    rfl
  · intro s hs he
    subst hs
    simp [lookup_location, he]
  · intro s hs he
    subst hs
    constructor
    · intro e hhit
      simp [lookup_location, he, hhit]
    · intro hmiss
      simp [lookup_location, he, hmiss]

def c4Map : LocationMap :=
  [("Bari", { name := "Bari", admin2 := [("Bosaso", { name := "Bosaso" })] })]

theorem C4_witness :
    lookup_location c4Map none "unclassified" = none
    ∧ lookup_location c4Map (some "") "unclassified" = none
    ∧ lookup_location c4Map (some "   ") "unclassified" = none
    ∧ lookup_location c4Map (some "BOSASO") "unclassified" =
        some (LocEntry.district { name := "Bosaso" } "Bari")
    ∧ lookup_location c4Map (some "New  Town") "unclassified" =
        some (LocEntry.fallback "unclassified" (some "New Town")) := by
  refine ⟨?_, ?_, ?_, ?_, ?_⟩
  · exact (C4_lookup_location_contract c4Map none "unclassified").1 rfl
  · exact (C4_lookup_location_contract c4Map (some "") "unclassified").2.1 "" rfl (by decide)
  · exact (C4_lookup_location_contract c4Map (some "   ") "unclassified").2.1 "   " rfl
      (by decide)
  · exact ((C4_lookup_location_contract c4Map (some "BOSASO") "unclassified").2.2 "BOSASO"
      rfl (by decide)).1 _ (by decide)
  · exact ((C4_lookup_location_contract c4Map (some "New  Town") "unclassified").2.2
      "New  Town" rfl (by decide)).2 (by decide)

/-! ### Claim C5: `lookup_org` fallback and diagnostic -/

/-- C5: for every non-blank name whose token is absent from the
organization table, `lookup_org` returns the synthesized entry
`{name: normalise_string(name), scope: "unknown"}` and writes exactly one
diagnostic line `Failed lookup |<token>|` to the error stream; on a hit
it returns the matched entry and writes no diagnostic. -/
theorem C5_lookup_org_contract (map : OrgMap) (s : String) (he : is_empty s = false) :
    ((get_lookup_table map).lookup (make_token s) = none →
      lookup_org map (some s) =
        (some { name := normalise_string s, scope := some "unknown", synonyms := [] },
         ["Failed lookup |" ++ make_token s ++ "|"]))
    ∧ (∀ info, (get_lookup_table map).lookup (make_token s) = some info →
      lookup_org map (some s) = (some info, [])) := by
  constructor
  · intro hmiss
    simp [lookup_org, he, hmiss]
  · intro info hhit
    simp [lookup_org, he, hhit]

def c5Map : OrgMap := [("Oxfam", { name := some "Oxfam", scope := some "international" })]

theorem C5_witness :
    lookup_org c5Map (some "Save the Children!") =
      (some { name := some "Save the Children!", scope := some "unknown", synonyms := [] },
       ["Failed lookup |save the children|"])
    ∧ lookup_org c5Map (some "OXFAM") =
      (some { name := some "Oxfam", scope := some "international" }, []) := by
  constructor
  · have h := (C5_lookup_org_contract c5Map "Save the Children!" (by decide)).1 (by decide)
    rw [h]
    decide
  · exact (C5_lookup_org_contract c5Map "OXFAM" (by decide)).2 _ (by decide)

/-! ### Claim C2: aggregator on an empty activity list -/

/-- C2 counterexample: running the aggregator on an empty activity list
yields the empty index; the location type `admin1` (an element of
`LOCATION_TYPES`) is an absent key, not a present key mapped to an empty
mapping, contradicting the claim. -/
theorem C2_counterexample :
    buildIndex [] = ([] : Index)
    ∧ (buildIndex []).lookup "admin1" = none
    ∧ "admin1" ∈ LOCATION_TYPES := by
  refine ⟨rfl, rfl, by decide⟩

theorem processLoctype_lookup_isSome (a : Activity) (idx : Index) (lt k : String)
    (h : (idx.lookup k).isSome = true ∨ k = lt) :
    ((processLoctype a idx lt).lookup k).isSome = true := by
  unfold processLoctype
  by_cases hk : k = lt
  · subst hk
    rw [lookup_dset_self]
    rfl
  · rcases h with h | h
    · rw [lookup_dset_ne _ _ _ _ hk, lookup_dsetdefault_ne _ _ _ _ hk]
      exact h
    · exact absurd h hk

theorem loctypes_fold_isSome (a : Activity) (idx : Index) (lt : String)
    (hlt : lt ∈ LOCATION_TYPES) :
    ((LOCATION_TYPES.foldl (processLoctype a) idx).lookup lt).isSome = true := by
  have hlt' : lt = "admin1" ∨ lt = "admin2" ∨ lt = "unclassified" := by
    simpa [LOCATION_TYPES] using hlt
  simp only [LOCATION_TYPES, List.foldl_cons, List.foldl_nil]
  rcases hlt' with rfl | rfl | rfl
  · exact processLoctype_lookup_isSome _ _ _ _ (Or.inl
      (processLoctype_lookup_isSome _ _ _ _ (Or.inl
        (processLoctype_lookup_isSome _ _ _ _ (Or.inr rfl)))))
  · exact processLoctype_lookup_isSome _ _ _ _ (Or.inl
      (processLoctype_lookup_isSome _ _ _ _ (Or.inr rfl)))
  · exact processLoctype_lookup_isSome _ _ _ _ (Or.inr rfl)

/-- C2 amended: on an empty activity list the aggregator outputs the
empty index (every location-type key absent); whenever the activity list
is nonempty, every location type in `LOCATION_TYPES` is a present key of
the resulting index (possibly mapped to an empty mapping). -/
theorem C2_amended (a : Activity) (rest : List Activity) (lt : String)
    (hlt : lt ∈ LOCATION_TYPES) :
    buildIndex ([] : List Activity) = ([] : Index)
    ∧ ((buildIndex (a :: rest)).lookup lt).isSome = true := by
  constructor
  · rfl
  · unfold buildIndex
    rw [List.foldl_cons]
    exact foldl_inv (fun idx => (idx.lookup lt).isSome = true)
      (fun index a => LOCATION_TYPES.foldl (processLoctype a) index) rest _
      (loctypes_fold_isSome a [] lt hlt)
      (fun idx x _ h => foldl_inv (fun idx => (idx.lookup lt).isSome = true)
        (processLoctype x) LOCATION_TYPES idx h
        (fun idx' lt' _ h' => processLoctype_lookup_isSome _ _ _ _ (Or.inl h')))

theorem C2_amended_witness :
    buildIndex ([] : List Activity) = ([] : Index)
    ∧ ((buildIndex [{ identifier := "a", title := "t", source := "s" }]).lookup
        "admin1").isSome = true :=
  C2_amended { identifier := "a", title := "t", source := "s" } [] "admin1" (by decide)

/-! ### Claim C6: shape and idempotence of `make_token` -/

/-- Characters a token may contain: word characters and the space. -/
def tokenChar (c : Char) : Bool := isWordChar c || c == ' '

/-- No two consecutive spaces (all spaces are single). -/
def noDS : List Char → Bool
  | a :: b :: rest => !(a == ' ' && b == ' ') && noDS (b :: rest)
  | _ => true

/-- Adjacent-pair relation corresponding to `noDS`. -/
def noSpacePair (a b : Char) : Prop := ¬(a = ' ' ∧ b = ' ')

theorem isWordChar_ne_space (c : Char) (h : isWordChar c = true) : c ≠ ' ' := by
  intro hc
  subst hc
  exact absurd h (by decide)

theorem isWordChar_not_ws (c : Char) (h : isWordChar c = true) : c.isWhitespace = false := by
  rw [isWordChar, Bool.or_eq_true] at h
  rcases h with h | h
  · rw [isAlphanum_iff] at h
    rw [Bool.eq_false_iff]
    intro hw
    rw [isWhitespace_iff] at hw
    omega
  · have hc : c = '_' := by simpa using h
    subst hc
    decide

theorem toLower_space_iff (c : Char) : c.toLower = ' ' ↔ c = ' ' := by
  constructor
  · intro h
    have h32 : (c.toLower).toNat = 32 := by rw [h]; rfl
    rw [toNat_toLower] at h32
    by_cases hu : 65 ≤ c.toNat ∧ c.toNat ≤ 90
    · rw [if_pos hu] at h32
      omega
    · rw [if_neg hu] at h32
      rw [← char_toNat_inj]
      exact h32
  · intro h
    subst h
    decide

theorem toLower_wordChar (c : Char) (h : isWordChar c = true) :
    isWordChar c.toLower = true := by
  rw [isWordChar, Bool.or_eq_true] at h ⊢
  rcases h with h | h
  · left
    rw [isAlphanum_iff] at h ⊢
    rw [toNat_toLower]
    by_cases hu : 65 ≤ c.toNat ∧ c.toNat ≤ 90
    · rw [if_pos hu]
      omega
    · rw [if_neg hu]
      omega
  · right
    have hc : c = '_' := by simpa using h
    subst hc
    decide

theorem toLower_tokenChar (c : Char) (h : tokenChar c = true) :
    tokenChar c.toLower = true := by
  rw [tokenChar, Bool.or_eq_true] at h ⊢
  rcases h with h | h
  · exact Or.inl (toLower_wordChar c h)
  · right
    have hc : c = ' ' := by simpa using h
    subst hc
    decide

theorem mem_squashNonWord (l : List Char) : ∀ (b : Bool) (c : Char),
    c ∈ squashNonWord b l → tokenChar c = true := by
  induction l with
  | nil =>
    intro b c hc
    simp [squashNonWord] at hc
  | cons d cs ih =>
    intro b c hc
    rw [squashNonWord] at hc
    by_cases hw : isWordChar d = true
    · rw [if_pos hw] at hc
      rcases List.mem_cons.mp hc with rfl | hc
      · simp [tokenChar, hw]
      · exact ih false c hc
    · rw [if_neg (by simpa using hw)] at hc
      cases b with
      | true =>
        rw [if_pos rfl] at hc
        exact ih true c hc
      | false =>
        rw [if_neg (by simp)] at hc
        rcases List.mem_cons.mp hc with rfl | hc
        · decide
        · exact ih true c hc

theorem head_squash_true (l : List Char) : ∀ c, (squashNonWord true l).head? = some c →
    isWordChar c = true := by
  induction l with
  | nil =>
    intro c hc
    simp [squashNonWord] at hc
  | cons d cs ih =>
    intro c hc
    rw [squashNonWord] at hc
    by_cases hw : isWordChar d = true
    · rw [if_pos hw] at hc
      simp at hc
      exact hc ▸ hw
    · rw [if_neg (by simpa using hw), if_pos rfl] at hc
      exact ih c hc

theorem noDS_cons_cons (a b : Char) (l : List Char) :
    noDS (a :: b :: l) = (!(a == ' ' && b == ' ') && noDS (b :: l)) := rfl

theorem noDS_iff_chain (l : List Char) : noDS l = true ↔ l.Chain' noSpacePair := by
  induction l with
  | nil => simp [noDS]
  | cons c cs ih =>
    cases cs with
    | nil => simp [noDS]
    | cons d rest =>
      rw [noDS_cons_cons, List.chain'_cons, Bool.and_eq_true, ← ih]
      constructor
      · rintro ⟨h1, h2⟩
        refine ⟨?_, h2⟩
        intro hcd
        rw [hcd.1, hcd.2] at h1
        simp at h1
      · rintro ⟨h1, h2⟩
        refine ⟨?_, h2⟩
        rw [Bool.not_eq_true', Bool.and_eq_false_iff]
        by_cases hc : c = ' '
        · right
          rw [beq_eq_false_iff_ne]
          intro hd
          exact h1 ⟨hc, hd⟩
        · left
          exact beq_eq_false_iff_ne.mpr hc

theorem noDS_squash (l : List Char) : ∀ b, noDS (squashNonWord b l) = true := by
  induction l with
  | nil =>
    intro b
    rfl
  | cons d cs ih =>
    intro b
    rw [squashNonWord]
    by_cases hw : isWordChar d = true
    · rw [if_pos hw]
      have hd : (d == ' ') = false :=
        beq_eq_false_iff_ne.mpr (isWordChar_ne_space d hw)
      cases hh : squashNonWord false cs with
      | nil => rfl
      | cons e tail =>
        rw [noDS_cons_cons, hd, ← hh, ih false]
        rfl
    · rw [if_neg (by simpa using hw)]
      cases b with
      | true =>
        rw [if_pos rfl]
        exact ih true
      | false =>
        rw [if_neg (by simp)]
        cases hh : squashNonWord true cs with
        | nil => rfl
        | cons e tail =>
          have he : isWordChar e = true := head_squash_true cs e (by rw [hh]; rfl)
          have he' : (e == ' ') = false :=
            beq_eq_false_iff_ne.mpr (isWordChar_ne_space e he)
          rw [noDS_cons_cons, he', ← hh, ih true]
          rfl

theorem head?_dropWhile_not {α : Type} (p : α → Bool) (l : List α) (c : α)
    (h : (l.dropWhile p).head? = some c) : p c = false := by
  induction l with
  | nil => simp at h
  | cons d cs ih =>
    rw [List.dropWhile_cons] at h
    by_cases hd : p d = true
    · rw [if_pos hd] at h
      exact ih h
    · rw [if_neg (by simpa using hd)] at h
      simp at h
      rw [← h]
      simpa using hd

theorem trimList_infix_self (l : List Char) : trimList l <:+: l := by
  unfold trimList
  have h1 : l.dropWhile Char.isWhitespace <:+ l := List.dropWhile_suffix _
  have h2 : (l.dropWhile Char.isWhitespace).reverse.dropWhile Char.isWhitespace <:+
      (l.dropWhile Char.isWhitespace).reverse := List.dropWhile_suffix _
  have h3 : ((l.dropWhile Char.isWhitespace).reverse.dropWhile Char.isWhitespace).reverse <+:
      l.dropWhile Char.isWhitespace := by
    have h3' := List.reverse_prefix.mpr h2
    simpa using h3'
  exact h3.isInfix.trans h1.isInfix

theorem mem_trimList (l : List Char) (c : Char) (h : c ∈ trimList l) : c ∈ l :=
  (trimList_infix_self l).sublist.subset h

theorem trimList_head (l : List Char) (c : Char) (h : (trimList l).head? = some c) :
    c.isWhitespace = false := by
  unfold trimList at h
  rw [List.head?_reverse] at h
  rcases hx : (l.dropWhile Char.isWhitespace).reverse.dropWhile Char.isWhitespace with _ | ⟨e, tail⟩
  · rw [hx] at h
    simp at h
  · have hsuf := List.dropWhile_suffix (l := (l.dropWhile Char.isWhitespace).reverse)
      (p := Char.isWhitespace)
    obtain ⟨t, ht⟩ := hsuf
    have hlast : ((l.dropWhile Char.isWhitespace).reverse).getLast? = some c := by
      rw [← ht, List.getLast?_append, h]
      rfl
    rw [List.getLast?_reverse] at hlast
    exact head?_dropWhile_not _ _ _ hlast

theorem trimList_getLast (l : List Char) (c : Char) (h : (trimList l).getLast? = some c) :
    c.isWhitespace = false := by
  unfold trimList at h
  rw [List.getLast?_reverse] at h
  exact head?_dropWhile_not _ _ _ h

theorem dropWhile_eq_self_of_head {α : Type} (p : α → Bool) (l : List α)
    (h : ∀ c, l.head? = some c → p c = false) : l.dropWhile p = l := by
  cases l with
  | nil => rfl
  | cons d cs =>
    rw [List.dropWhile_cons, if_neg]
    rw [h d rfl]
    simp

theorem trimList_eq_self (l : List Char)
    (hh : ∀ c, l.head? = some c → c.isWhitespace = false)
    (hl : ∀ c, l.getLast? = some c → c.isWhitespace = false) :
    trimList l = l := by
  unfold trimList
  rw [dropWhile_eq_self_of_head _ _ hh]
  rw [dropWhile_eq_self_of_head _ _ (fun c hc => hl c (by rwa [List.head?_reverse] at hc))]
  rw [List.reverse_reverse]

theorem noSpacePair_toLower (a b : Char) (h : noSpacePair a b) :
    noSpacePair a.toLower b.toLower := by
  intro hab
  exact h ⟨(toLower_space_iff a).mp hab.1, (toLower_space_iff b).mp hab.2⟩

theorem squash_fixpoint (l : List Char)
    (hchars : ∀ c ∈ l, tokenChar c = true)
    (hds : noDS l = true)
    (hlast : ∀ c, l.getLast? = some c → c ≠ ' ') :
    squashNonWord false l = l
    ∧ (∀ c, l.head? = some c → isWordChar c = true → squashNonWord true l = l) := by
  induction l with
  | nil =>
    refine ⟨rfl, ?_⟩
    intro c hc
    simp at hc
  | cons d cs ih =>
    have hdtok : tokenChar d = true := hchars d (List.mem_cons_self _ _)
    have hchars' : ∀ c ∈ cs, tokenChar c = true :=
      fun c hc => hchars c (List.mem_cons_of_mem _ hc)
    have hds' : noDS cs = true := by
      cases cs with
      | nil => rfl
      | cons e rest =>
        rw [noDS_cons_cons, Bool.and_eq_true] at hds
        exact hds.2
    have hlast' : ∀ c, cs.getLast? = some c → c ≠ ' ' := by
      intro c hc
      apply hlast
      cases cs with
      | nil => simp at hc
      | cons e rest =>
        rw [List.getLast?_cons_cons]
        exact hc
    have ihc := ih hchars' hds' hlast'
    by_cases hw : isWordChar d = true
    · constructor
      · rw [squashNonWord, if_pos hw, ihc.1]
      · intro c _ _
        rw [squashNonWord, if_pos hw, ihc.1]
    · have hdsp : d = ' ' := by
        rw [tokenChar, Bool.or_eq_true] at hdtok
        rcases hdtok with h | h
        · exact absurd h hw
        · simpa using h
      subst hdsp
      constructor
      · rw [squashNonWord, if_neg (by simpa using hw), if_neg (by simp)]
        congr 1
        cases cs with
        | nil =>
          exfalso
          exact hlast ' ' (by simp) rfl
        | cons e rest =>
          have h1 : (e == ' ') = false := by
            rw [noDS_cons_cons, Bool.and_eq_true] at hds
            have h2 := hds.1
            simpa using h2
          have he : isWordChar e = true := by
            have h3 := hchars' e (List.mem_cons_self _ _)
            rw [tokenChar, Bool.or_eq_true] at h3
            rcases h3 with h3 | h3
            · exact h3
            · rw [h3] at h1
              simp at h1
          exact ihc.2 e rfl he
      · intro c hc hcw
        have hcc : ' ' = c := by simpa using hc
        rw [← hcc] at hcw
        exact absurd hcw (by decide)

theorem make_token_data (s : String) :
    (make_token s).toList = trimList ((squashNonWord false s.toList).map Char.toLower) := rfl

theorem make_token_chars (s : String) :
    ∀ c ∈ (make_token s).toList, tokenChar c = true := by
  intro c hc
  rw [make_token_data] at hc
  have hc' := mem_trimList _ _ hc
  rw [List.mem_map] at hc'
  obtain ⟨d, hd, rfl⟩ := hc'
  exact toLower_tokenChar d (mem_squashNonWord _ _ _ hd)

theorem make_token_lower (s : String) :
    ∀ c ∈ (make_token s).toList, c.isUpper = false := by
  intro c hc
  rw [make_token_data] at hc
  have hc' := mem_trimList _ _ hc
  rw [List.mem_map] at hc'
  obtain ⟨d, _, rfl⟩ := hc'
  exact toLower_not_upper d

theorem make_token_noDS (s : String) : noDS (make_token s).toList = true := by
  rw [make_token_data, noDS_iff_chain]
  apply List.Chain'.infix _ (trimList_infix_self _)
  apply List.chain'_map_of_chain' _ noSpacePair_toLower
  rw [← noDS_iff_chain]
  exact noDS_squash _ false

theorem make_token_head (s : String) :
    ((make_token s).toList.head? == some ' ') = false := by
  cases hh : (make_token s).toList.head? with
  | none => rfl
  | some c =>
    have hw := trimList_head _ _ (by rw [make_token_data] at hh; exact hh)
    apply beq_eq_false_iff_ne.mpr
    simp only [ne_eq, Option.some.injEq]
    intro h
    subst h
    exact absurd hw (by decide)

theorem make_token_getLast (s : String) :
    ((make_token s).toList.getLast? == some ' ') = false := by
  cases hh : (make_token s).toList.getLast? with
  | none => rfl
  | some c =>
    have hw := trimList_getLast _ _ (by rw [make_token_data] at hh; exact hh)
    apply beq_eq_false_iff_ne.mpr
    simp only [ne_eq, Option.some.injEq]
    intro h
    subst h
    exact absurd hw (by decide)

theorem make_token_idem (s : String) : make_token (make_token s) = make_token s := by
  have hchars := make_token_chars s
  have hds : noDS (make_token s).toList = true := make_token_noDS s
  have hlast : ∀ c, (make_token s).toList.getLast? = some c → c ≠ ' ' := by
    intro c hc
    have hw := trimList_getLast _ _ (by rw [make_token_data] at hc; exact hc)
    intro h
    subst h
    exact absurd hw (by decide)
  have hhead : ∀ c, (make_token s).toList.head? = some c → c.isWhitespace = false := by
    intro c hc
    exact trimList_head _ _ (by rw [make_token_data] at hc; exact hc)
  have hsq : squashNonWord false (make_token s).toList = (make_token s).toList :=
    (squash_fixpoint _ hchars hds hlast).1
  have hmap : ((make_token s).toList.map Char.toLower) = (make_token s).toList := by
    have hcg : ∀ c ∈ (make_token s).toList, Char.toLower c = id c := by
      intro c hc
      simpa using toLower_eq_self c (make_token_lower s c hc)
    rw [List.map_congr_left hcg, List.map_id]
  have htrim : trimList (make_token s).toList = (make_token s).toList := by
    apply trimList_eq_self _ hhead
    intro c hc
    exact trimList_getLast _ _ (by rw [make_token_data] at hc; exact hc)
  show (⟨trimList ((squashNonWord false (make_token s).toList).map Char.toLower)⟩ : String)
    = make_token s
  rw [hsq, hmap, htrim]
  rfl

/-- C6: for every string `s`, `make_token s` is lowercase, contains only
word characters and single spaces, has no leading or trailing space, and
is idempotent: `make_token (make_token s) = make_token s`. -/
theorem C6_make_token_wellformed (s : String) :
    (make_token s).toList.all tokenChar = true
    ∧ (make_token s).toList.all (fun c => !c.isUpper) = true
    ∧ ((make_token s).toList.head? == some ' ') = false
    ∧ ((make_token s).toList.getLast? == some ' ') = false
    ∧ noDS (make_token s).toList = true
    ∧ make_token (make_token s) = make_token s := by
  refine ⟨?_, ?_, make_token_head s, make_token_getLast s, make_token_noDS s,
    make_token_idem s⟩
  · rw [List.all_eq_true]
    intro c hc
    exact make_token_chars s c hc
  · rw [List.all_eq_true]
    intro c hc
    simp [make_token_lower s c hc]

/-! ### Aggregator lemmas -/

/-- Effect of a batch of counter increments on one key of a counter dict. -/
def bump (v : Option Nat) (n : Nat) : Option Nat :=
  if n = 0 then v else some (v.getD 0 + n)

theorem bump_bump (v : Option Nat) (m n : Nat) : bump (bump v m) n = bump v (m + n) := by
  unfold bump
  by_cases hn : n = 0
  · subst hn
    simp
  · by_cases hm : m = 0
    · subst hm
      simp
    · rw [if_neg hm, if_neg hn, if_neg (by omega)]
      simp
      omega

theorem cntRaw_nil (k : String) : cntRaw [] k = 0 := rfl

theorem bump_succ (v : Option Nat) (n : Nat) :
    bump (some (v.getD 0 + 1)) n = bump v (1 + n) := by
  unfold bump
  rw [if_neg (show ¬(1 + n = 0) from by omega)]
  by_cases hn : n = 0
  · subst hn
    simp
  · rw [if_neg hn]
    simp
    omega

theorem cntRaw_cons (s : String) (l : List String) (k : String) :
    cntRaw (s :: l) k = (if s ≠ "" ∧ strip s = k then 1 else 0) + cntRaw l k := by
  unfold cntRaw
  rw [List.filter_cons]
  by_cases h : (!(s == "") && (strip s == k)) = true
  · rw [if_pos h, List.length_cons, if_pos]
    · omega
    · rw [Bool.and_eq_true] at h
      exact ⟨by simpa using h.1, by simpa using h.2⟩
  · rw [if_neg h, if_neg]
    · omega
    · intro hc
      apply h
      rw [Bool.and_eq_true]
      exact ⟨by simpa using hc.1, by simpa using hc.2⟩

theorem cntRaw_ne_zero_iff (l : List String) (k : String) :
    cntRaw l k ≠ 0 ↔ ∃ s ∈ l, s ≠ "" ∧ strip s = k := by
  constructor
  · intro h
    have hne : (l.filter fun s => !(s == "") && (strip s == k)) ≠ [] := by
      intro hc
      apply h
      unfold cntRaw
      rw [hc]
      rfl
    obtain ⟨s, hs⟩ := List.exists_mem_of_ne_nil _ hne
    rw [List.mem_filter, Bool.and_eq_true] at hs
    exact ⟨s, hs.1, by simpa using hs.2.1, by simpa using hs.2.2⟩
  · rintro ⟨s, hsl, hne, hk⟩ h
    unfold cntRaw at h
    rw [List.length_eq_zero, List.filter_eq_nil_iff] at h
    exact h s hsl (by simp [hne, hk])

theorem natSum_eq_zero (l : List Nat) (h : ∀ x ∈ l, x = 0) : l.sum = 0 := by
  induction l with
  | nil => rfl
  | cons x xs ih =>
    rw [List.sum_cons, h x (List.mem_cons_self _ _),
      ih (fun y hy => h y (List.mem_cons_of_mem _ hy))]

theorem counts_fold_lookup (l : List String) (o : String) :
    ∀ os : List (String × Nat),
      ((l.foldl (fun os org => if org = "" then os else dincr os (strip org)) os).lookup o)
        = bump (os.lookup o) (cntRaw l o) := by
  induction l with
  | nil =>
    intro os
    rw [List.foldl_nil, cntRaw_nil]
    rfl
  | cons s l ih =>
    intro os
    rw [List.foldl_cons, cntRaw_cons]
    by_cases hs : s = ""
    · subst hs
      rw [if_pos rfl, if_neg (by simp), ih]
      simp
    · rw [if_neg hs]
      by_cases hk : strip s = o
      · rw [if_pos ⟨hs, hk⟩, ih, hk, lookup_dincr_self, bump_succ]
      · rw [if_neg (fun hc => hk hc.2), ih,
          lookup_dincr_ne _ _ _ (fun he => hk he.symm), Nat.zero_add]

theorem orgsAdd_lookup (a : Activity) (o : String) (os : List (String × Nat)) :
    (orgsAdd a os).lookup o = bump (os.lookup o) (cntOrg a o) := by
  unfold orgsAdd cntOrg
  generalize ROLES = rs
  induction rs generalizing os with
  | nil =>
    rw [List.foldl_nil, List.map_nil, List.sum_nil]
    rfl
  | cons r rs ih =>
    rw [List.foldl_cons, List.map_cons, List.sum_cons, ih, counts_fold_lookup, bump_bump]

/-- Result of applying the per-location entry update `n` times to an
optional entry slot (missing slot starts from the default record). -/
def updN (a : Activity) : Nat → Option IndexEntry → Option IndexEntry
  | 0, v => v
  | n + 1, v => updN a n (some (updateEntry a (v.getD emptyEntry)))

theorem dset_dsetdefault {α : Type} (d : List (String × α)) (k : String) (v w : α) :
    dset (dsetdefault d k v) k w = dset d k w := by
  induction d with
  | nil => simp [dsetdefault, dset]
  | cons p d ih =>
    obtain ⟨k', v'⟩ := p
    by_cases h : k' = k
    · simp [dsetdefault, dset, h]
    · simp [dsetdefault, dset, h, ih]

theorem dget_dsetdefault_same {α : Type} (d : List (String × α)) (k : String) (v : α) :
    dget (dsetdefault d k v) k v = dget d k v := by
  unfold dget
  rw [lookup_dsetdefault_self, Option.getD_some]

theorem processLocation_eq (a : Activity) (sub : List (String × IndexEntry)) (s : String) :
    processLocation a sub s = if s = "" then sub
      else dset sub (strip s) (updateEntry a (dget sub (strip s) emptyEntry)) := by
  unfold processLocation
  by_cases hs : s = ""
  · rw [if_pos hs, if_pos hs]
  · rw [if_neg hs, if_neg hs]
    show dset (dsetdefault sub (strip s) emptyEntry) (strip s)
        (updateEntry a (dget (dsetdefault sub (strip s) emptyEntry) (strip s) emptyEntry))
      = dset sub (strip s) (updateEntry a (dget sub (strip s) emptyEntry))
    rw [dget_dsetdefault_same, dset_dsetdefault]

theorem locfold_lookup (a : Activity) (l : List String) (k : String) :
    ∀ sub : List (String × IndexEntry),
      ((l.foldl (processLocation a) sub).lookup k) = updN a (cntRaw l k) (sub.lookup k) := by
  induction l with
  | nil =>
    intro sub
    rw [List.foldl_nil, cntRaw_nil]
    rfl
  | cons s l ih =>
    intro sub
    rw [List.foldl_cons, cntRaw_cons, processLocation_eq]
    by_cases hs : s = ""
    · rw [if_pos hs, if_neg (by simp [hs]), ih]
      simp
    · rw [if_neg hs]
      by_cases hk : strip s = k
      · rw [if_pos ⟨hs, hk⟩, ih, hk, lookup_dset_self]
        rw [show (1 : Nat) + cntRaw l k = cntRaw l k + 1 from by omega]
        rw [updN]
        rfl
      · rw [if_neg (fun hc => hk hc.2), ih,
          lookup_dset_ne _ _ _ _ (fun he => hk he.symm), Nat.zero_add]

theorem processLoctype_dget_ne (a : Activity) (idx : Index) (lt lt' : String)
    (h : lt ≠ lt') : dget (processLoctype a idx lt') lt [] = dget idx lt [] := by
  unfold processLoctype dget
  rw [lookup_dset_ne _ _ _ _ h, lookup_dsetdefault_ne _ _ _ _ h]

theorem processLoctype_dget_self (a : Activity) (idx : Index) (lt : String) :
    dget (processLoctype a idx lt) lt []
      = (dget a.locations lt []).foldl (processLocation a) (dget idx lt []) := by
  unfold processLoctype
  unfold dget
  rw [lookup_dset_self, Option.getD_some]
  congr 1
  rw [lookup_dsetdefault_self, Option.getD_some]

theorem loctypes_fold_dget (a : Activity) (idx : Index) (lt : String)
    (hlt : lt ∈ LOCATION_TYPES) :
    dget (LOCATION_TYPES.foldl (processLoctype a) idx) lt []
      = (dget a.locations lt []).foldl (processLocation a) (dget idx lt []) := by
  have hlt' : lt = "admin1" ∨ lt = "admin2" ∨ lt = "unclassified" := by
    simpa [LOCATION_TYPES] using hlt
  simp only [LOCATION_TYPES, List.foldl_cons, List.foldl_nil]
  rcases hlt' with rfl | rfl | rfl
  · rw [processLoctype_dget_ne _ _ _ _ (by decide),
      processLoctype_dget_ne _ _ _ _ (by decide), processLoctype_dget_self]
  · rw [processLoctype_dget_ne _ _ _ _ (by decide), processLoctype_dget_self,
      processLoctype_dget_ne _ _ _ _ (by decide)]
  · rw [processLoctype_dget_self, processLoctype_dget_ne _ _ _ _ (by decide),
      processLoctype_dget_ne _ _ _ _ (by decide)]

/-! ### Claim C8: org counts sum across activities -/

/-- C8: for every pair of activities that both list the same trimmed
location string of the same type (once each) and the same trimmed org
name under recognized roles, the index entry for that location has an
org counter for that name equal to the sum of its occurrences across the
two activities (roles merged into one flat counter). -/
theorem C8_org_counts_sum (a b : Activity) (lt k o : String)
    (hlt : lt ∈ LOCATION_TYPES)
    (ha : cntRaw (dget a.locations lt []) k = 1)
    (hb : cntRaw (dget b.locations lt []) k = 1)
    (hoa : 1 ≤ cntOrg a o) (hob : 1 ≤ cntOrg b o) :
    ∃ e, (dget (buildIndex [a, b]) lt []).lookup k = some e
      ∧ e.orgs.lookup o = some (cntOrg a o + cntOrg b o) := by
  have h1 : dget (buildIndex [a, b]) lt []
      = (dget b.locations lt []).foldl (processLocation b)
          ((dget a.locations lt []).foldl (processLocation a) (dget ([] : Index) lt [])) := by
    unfold buildIndex
    rw [List.foldl_cons, List.foldl_cons, List.foldl_nil]
    rw [loctypes_fold_dget _ _ _ hlt, loctypes_fold_dget _ _ _ hlt]
  rw [h1, locfold_lookup, hb, locfold_lookup, ha]
  refine ⟨updateEntry b (updateEntry a emptyEntry), rfl, ?_⟩
  have e1 : (updateEntry b (updateEntry a emptyEntry)).orgs
      = orgsAdd b (orgsAdd a ([] : List (String × Nat))) := rfl
  rw [e1, orgsAdd_lookup, orgsAdd_lookup, List.lookup_nil, bump_bump]
  unfold bump
  rw [if_neg (by omega)]
  simp

def c8A : Activity :=
  { identifier := "A", title := "tA", source := "sA",
    locations := [("admin1", ["Mudug"])], orgs := [("implementing", ["Oxfam"])] }

def c8B : Activity :=
  { identifier := "B", title := "tB", source := "sB",
    locations := [("admin1", ["Mudug"])], orgs := [("implementing", ["Oxfam"])] }

theorem C8_witness :
    ∃ e, (dget (buildIndex [c8A, c8B]) "admin1" []).lookup "Mudug" = some e
      ∧ e.orgs.lookup "Oxfam" = some 2 := by
  obtain ⟨e, h1, h2⟩ := C8_org_counts_sum c8A c8B "admin1" "Mudug" "Oxfam" (by decide)
    (by decide) (by decide) (by decide) (by decide)
  refine ⟨e, h1, ?_⟩
  rw [h2]
  decide

/-! ### Claim C9: index keys are the trimmed raw strings -/

theorem updN_isSome (a : Activity) (n : Nat) :
    ∀ v : Option IndexEntry, ((updN a n v).isSome = true) ↔ (v.isSome = true ∨ n ≠ 0) := by
  induction n with
  | zero =>
    intro v
    simp [updN]
  | succ n ih =>
    intro v
    rw [updN, ih]
    simp

theorem buildFrom_keys (lt k : String) (hlt : lt ∈ LOCATION_TYPES) (acts : List Activity) :
    ∀ idx : Index,
      (((dget (acts.foldl (fun index a => LOCATION_TYPES.foldl (processLoctype a) index) idx)
        lt []).lookup k).isSome = true) ↔
      (((dget idx lt []).lookup k).isSome = true
        ∨ ∃ a ∈ acts, ∃ s ∈ dget a.locations lt [], s ≠ "" ∧ strip s = k) := by
  induction acts with
  | nil =>
    intro idx
    simp
  | cons a acts ih =>
    intro idx
    rw [List.foldl_cons, ih]
    constructor
    · rintro (h | h)
      · rw [loctypes_fold_dget _ _ _ hlt, locfold_lookup, updN_isSome] at h
        rcases h with h | h
        · exact Or.inl h
        · rw [cntRaw_ne_zero_iff] at h
          obtain ⟨s, hs1, hs2⟩ := h
          exact Or.inr ⟨a, List.mem_cons_self _ _, s, hs1, hs2⟩
      · obtain ⟨a', ha', rest⟩ := h
        exact Or.inr ⟨a', List.mem_cons_of_mem _ ha', rest⟩
    · rintro (h | h)
      · left
        rw [loctypes_fold_dget _ _ _ hlt, locfold_lookup, updN_isSome]
        exact Or.inl h
      · obtain ⟨a', ha', s, hs1, hs2⟩ := h
        rcases List.mem_cons.mp ha' with rfl | ha'
        · left
          rw [loctypes_fold_dget _ _ _ hlt, locfold_lookup, updN_isSome]
          right
          rw [cntRaw_ne_zero_iff]
          exact ⟨s, hs1, hs2⟩
        · right
          exact ⟨a', ha', s, hs1, hs2⟩

theorem buildIndex_keys (acts : List Activity) (lt k : String)
    (hlt : lt ∈ LOCATION_TYPES) :
    (((dget (buildIndex acts) lt []).lookup k).isSome = true) ↔
      ∃ a ∈ acts, ∃ s ∈ dget a.locations lt [], s ≠ "" ∧ strip s = k := by
  unfold buildIndex
  rw [buildFrom_keys lt k hlt acts []]
  have h0 : dget ([] : Index) lt [] = ([] : List (String × IndexEntry)) := rfl
  rw [h0, List.lookup_nil]
  simp

/-- C9: for every non-blank raw location string on an activity, the
index key used for it is exactly the raw string with leading and
trailing whitespace stripped — and every index key arises that way (no
case change, no tokenization). -/
theorem C9_trimmed_raw_keys (acts : List Activity) (lt k : String)
    (hlt : lt ∈ LOCATION_TYPES) :
    (((dget (buildIndex acts) lt []).lookup k).isSome = true) ↔
      ∃ a ∈ acts, ∃ s ∈ dget a.locations lt [], s ≠ "" ∧ strip s = k :=
  buildIndex_keys acts lt k hlt

def c9A : Activity :=
  { identifier := "A", title := "t", source := "s",
    locations := [("admin1", ["Capital  City "])] }

theorem C9_witness :
    (((dget (buildIndex [c9A]) "admin1" []).lookup "Capital  City").isSome = true)
    ∧ (dget (buildIndex [c9A]) "admin1" []).lookup "capital city" = none := by
  constructor
  · exact (C9_trimmed_raw_keys [c9A] "admin1" "Capital  City" (by decide)).mpr
      ⟨c9A, List.mem_cons_self _ _, "Capital  City ", by decide, by decide, by decide⟩
  · decide

/-! ### Entry invariants of the aggregator (claims C10 and C3) -/

/-- Every entry stored in the index built from `acts` was produced by
`updateEntry` steps (from the default record) for activities of `acts`:
any property with that closure condition holds of all stored entries. -/
theorem buildIndex_entries (acts : List Activity) (Q : IndexEntry → Prop)
    (hQ : ∀ a ∈ acts, ∀ e, (Q e ∨ e = emptyEntry) → Q (updateEntry a e)) :
    ∀ lt k e, (dget (buildIndex acts) lt []).lookup k = some e → Q e := by
  have hidx : ∀ q ∈ buildIndex acts, ∀ p ∈ q.2, Q p.2 := by
    unfold buildIndex
    refine foldl_inv (fun idx : Index => ∀ q ∈ idx, ∀ p ∈ q.2, Q p.2) _ _ _ ?_ ?_
    · intro q hq
      exact absurd hq (List.not_mem_nil q)
    · intro idx a ha h
      refine foldl_inv (fun idx : Index => ∀ q ∈ idx, ∀ p ∈ q.2, Q p.2)
        (processLoctype a) LOCATION_TYPES idx h ?_
      intro idx' lt' _ h' q hq
      unfold processLoctype at hq
      rcases mem_dset _ _ _ _ hq with rfl | hq
      · show ∀ p ∈ (dget a.locations lt' []).foldl (processLocation a)
          (dget (dsetdefault idx' lt' []) lt' []), Q p.2
        refine foldl_inv (fun sub => ∀ p ∈ sub, Q p.2) (processLocation a) _ _ ?_ ?_
        · intro p hp
          rw [dget, lookup_dsetdefault_self, Option.getD_some] at hp
          cases hv : idx'.lookup lt' with
          | none =>
            rw [hv] at hp
            exact absurd hp (List.not_mem_nil p)
          | some sub₀ =>
            rw [hv, Option.getD_some] at hp
            exact h' (lt', sub₀) (lookup_mem _ _ _ hv) p hp
        · intro sub s _ hsub p hp
          rw [processLocation_eq] at hp
          by_cases hs : s = ""
          · rw [if_pos hs] at hp
            exact hsub p hp
          · rw [if_neg hs] at hp
            rcases mem_dset _ _ _ _ hp with rfl | hp
            · refine hQ a ha _ ?_
              rw [dget]
              cases hv : sub.lookup (strip s) with
              | none => exact Or.inr rfl
              | some e' =>
                rw [Option.getD_some]
                exact Or.inl (hsub (strip s, e') (lookup_mem _ _ _ hv))
            · exact hsub p hp
      · rcases mem_dsetdefault _ _ _ _ hq with rfl | hq
        · intro p hp
          exact absurd hp (List.not_mem_nil p)
        · exact h' q hq
  intro lt k e he
  rw [dget] at he
  cases hq : (buildIndex acts).lookup lt with
  | none =>
    rw [hq] at he
    simp at he
  | some sub =>
    rw [hq, Option.getD_some] at he
    exact hidx (lt, sub) (lookup_mem _ _ _ hq) (k, e) (lookup_mem _ _ _ he)

/-! ### Claim C10: every stored entry has all sector types present -/

theorem sectorsAdd_isSome (a : Activity) (sec : List (String × List (String × Nat)))
    (t : String) (ht : t ∈ SECTOR_TYPES) :
    ((sectorsAdd a sec).lookup t).isSome = true := by
  have ht' : t = "dac" ∨ t = "humanitarian" := by
    simpa [SECTOR_TYPES] using ht
  unfold sectorsAdd
  simp only [SECTOR_TYPES, List.foldl_cons, List.foldl_nil]
  rcases ht' with rfl | rfl
  · rw [lookup_dset_ne _ _ _ _ (by decide), lookup_dsetdefault_ne _ _ _ _ (by decide),
      lookup_dset_self]
    rfl
  · rw [lookup_dset_self]
    rfl

theorem updateEntry_sectors (a : Activity) (e : IndexEntry) (t : String)
    (ht : t ∈ SECTOR_TYPES) : (((updateEntry a e).sectors.lookup t).isSome = true) := by
  show ((sectorsAdd a e.sectors).lookup t).isSome = true
  exact sectorsAdd_isSome a e.sectors t ht

/-- C10: every index entry present in the aggregator's output has a
sectors mapping that contains every sector type in `SECTOR_TYPES` as a
key, even when no contributing activity declares a sector of that type. -/
theorem C10_sector_types_present (acts : List Activity) (lt k : String) (e : IndexEntry)
    (t : String) (he : (dget (buildIndex acts) lt []).lookup k = some e)
    (ht : t ∈ SECTOR_TYPES) : ((e.sectors.lookup t).isSome = true) :=
  buildIndex_entries acts
    (fun e => ∀ t ∈ SECTOR_TYPES, ((e.sectors.lookup t).isSome = true))
    (fun a _ e _ t ht => updateEntry_sectors a e t ht) lt k e he t ht

def c10E : IndexEntry :=
  { activities := [{ identifier := "A", title := "t", source := "s" }],
    orgs := [], sectors := [("dac", []), ("humanitarian", [])] }

theorem C10_witness :
    ((c10E.sectors.lookup "dac").isSome = true)
    ∧ ((c10E.sectors.lookup "humanitarian").isSome = true) :=
  ⟨C10_sector_types_present [c9A] "admin1" "Capital  City" c10E "dac" (by decide) (by decide),
   C10_sector_types_present [c9A] "admin1" "Capital  City" c10E "humanitarian" (by decide)
     (by decide)⟩

/-! ### Claim C3: blank-string skipping in the aggregator -/

def c3A : Activity :=
  { identifier := "A", title := "t", source := "s",
    locations := [("admin1", [" "])], orgs := [("implementing", [" "])] }

def c3E : IndexEntry :=
  { activities := [{ identifier := "A", title := "t", source := "s" }],
    orgs := [("", 1)], sectors := [("dac", []), ("humanitarian", [])] }

/-- C3 counterexample: a whitespace-only raw location string `" "` is not
skipped by `if not location` (only the empty string is falsy); it is
stripped to `""` and an index entry is created under the empty-string
key; likewise the whitespace-only org string `" "` produces an org
counter under the empty-string key. -/
theorem C3_counterexample :
    (dget (buildIndex [c3A]) "admin1" []).lookup "" = some c3E
    ∧ c3E.orgs.lookup "" = some 1 := by
  constructor
  · decide
  · decide

theorem cntOrg_ne_zero (a : Activity) (o : String) (h : cntOrg a o ≠ 0) :
    ∃ role ∈ ROLES, ∃ s ∈ dget a.orgs role [], s ≠ "" ∧ strip s = o := by
  unfold cntOrg at h
  have hex : ∃ role ∈ ROLES, cntRaw (dget a.orgs role []) o ≠ 0 := by
    by_contra hc
    push_neg at hc
    refine h (natSum_eq_zero _ ?_)
    intro x hx
    rw [List.mem_map] at hx
    obtain ⟨role, hr, rfl⟩ := hx
    exact hc role hr
  obtain ⟨role, hr, hcnt⟩ := hex
  rw [cntRaw_ne_zero_iff] at hcnt
  obtain ⟨s, hs⟩ := hcnt
  exact ⟨role, hr, s, hs⟩

/-- C3 amended: during aggregation only empty raw strings are skipped
(Python falsiness), so every index key arises from a non-empty raw
location string (trimmed), and every org counter arises from a non-empty
raw org string under a recognized role (trimmed); whitespace-only
strings are not skipped — they are trimmed to the empty string and
produce an entry or counter under the empty-string key. -/
theorem C3_amended (acts : List Activity) (lt k : String) (hlt : lt ∈ LOCATION_TYPES) :
    ((((dget (buildIndex acts) lt []).lookup k).isSome = true) →
      ∃ a ∈ acts, ∃ s ∈ dget a.locations lt [], s ≠ "" ∧ strip s = k)
    ∧ (∀ e o, (dget (buildIndex acts) lt []).lookup k = some e →
        ((e.orgs.lookup o).isSome = true) →
        ∃ a ∈ acts, ∃ role ∈ ROLES, ∃ s ∈ dget a.orgs role [], s ≠ "" ∧ strip s = o) := by
  constructor
  · intro h
    exact (buildIndex_keys acts lt k hlt).mp h
  · intro e o he ho
    refine buildIndex_entries acts
      (fun e => ∀ o, ((e.orgs.lookup o).isSome = true) →
        ∃ a ∈ acts, ∃ role ∈ ROLES, ∃ s ∈ dget a.orgs role [], s ≠ "" ∧ strip s = o)
      ?_ lt k e he o ho
    intro a ha e' h' o' ho'
    have hrw : (updateEntry a e').orgs = orgsAdd a e'.orgs := rfl
    rw [hrw, orgsAdd_lookup] at ho'
    by_cases hc : cntOrg a o' = 0
    · rw [bump, if_pos hc] at ho'
      rcases h' with h' | h'
      · exact h' o' ho'
      · subst h'
        rw [show emptyEntry.orgs = [] from rfl, List.lookup_nil] at ho'
        exact absurd ho' (by decide)
    · obtain ⟨role, hr, s, hs⟩ := cntOrg_ne_zero a o' hc
      exact ⟨a, ha, role, hr, s, hs⟩

theorem C3_amended_witness :
    ∃ a ∈ [c3A], ∃ role ∈ ROLES, ∃ s ∈ dget a.orgs role [], s ≠ "" ∧ strip s = "" :=
  (C3_amended [c3A] "admin1" "" (by decide)).2 c3E "" (by decide) (by decide)

/-! ### Claim C1: first-writer-wins in the location lookup table -/

def c1R1 : RegionInfo := { name := "R1", admin2 := [("t", { name := "T1" })] }

def c1R2 : RegionInfo := { name := "R2", admin2 := [("t", { name := "T2" })] }

def c1R3 : RegionInfo := { name := "T3" }

def c1Map : LocationMap := [("r1", c1R1), ("r2", c1R2), ("t", c1R3)]

/-- C1 counterexample: in `c1Map` the district name `t` of region `R2`
collides with the earlier-declared district token `t` of region `R1`,
yet resolving `t` returns the entry of the later-declared region `T3`,
not the earlier district entry: a region's own token is inserted with a
plain dict assignment, which overwrites, so not every insertion after
the first is dropped, and resolution can return a later entry. -/
theorem C1_counterexample :
    (get_location_lookup_table c1Map).lookup "t" = some (LocEntry.region c1R3)
    ∧ ((get_location_lookup_table c1Map).lookup "t"
        == some (LocEntry.district { name := "T1" } "R1")) = false := by
  constructor
  · decide
  · decide

theorem lookup_dsetdefault_keep {α : Type} (d : List (String × α)) (k : String) (v : α)
    (t : String) (e : α) (h : d.lookup t = some e) :
    (dsetdefault d k v).lookup t = some e := by
  by_cases hk : t = k
  · subst hk
    rw [lookup_dsetdefault_self, h]
    rfl
  · rw [lookup_dsetdefault_ne _ _ _ _ hk]
    exact h

theorem addSite_preserve (a1 a2 : String) (table : List (String × LocEntry))
    (r : String × SiteInfo) (t : String) (e : LocEntry)
    (h : table.lookup t = some e) : (addSite a1 a2 table r).lookup t = some e := by
  unfold addSite
  refine foldl_inv (fun tb : List (String × LocEntry) => tb.lookup t = some e) _ _ _
    (lookup_dsetdefault_keep _ _ _ _ _ h) ?_
  intro tb x _ htb
  exact lookup_dsetdefault_keep _ _ _ _ _ htb

theorem addDistrict_preserve (info1 : RegionInfo) (table : List (String × LocEntry))
    (q : String × DistrictInfo) (t : String) (e : LocEntry)
    (h : table.lookup t = some e) : (addDistrict info1 table q).lookup t = some e := by
  unfold addDistrict
  refine foldl_inv (fun tb : List (String × LocEntry) => tb.lookup t = some e) _ _ _ ?_ ?_
  · refine foldl_inv (fun tb : List (String × LocEntry) => tb.lookup t = some e) _ _ _
      (lookup_dsetdefault_keep _ _ _ _ _ h) ?_
    intro tb x _ htb
    exact addSite_preserve _ _ _ _ _ _ htb
  · intro tb x _ htb
    exact lookup_dsetdefault_keep _ _ _ _ _ htb

theorem addRegion_preserve (pr : String × RegionInfo) (table : List (String × LocEntry))
    (t : String) (e : LocEntry) (h : table.lookup t = some e)
    (hne : make_token pr.1 ≠ t) : (addRegion table pr).lookup t = some e := by
  unfold addRegion
  refine foldl_inv (fun tb : List (String × LocEntry) => tb.lookup t = some e) _ _ _ ?_ ?_
  · refine foldl_inv (fun tb : List (String × LocEntry) => tb.lookup t = some e) _ _ _ ?_ ?_
    · show (dset table (make_token pr.1) (LocEntry.region pr.2)).lookup t = some e
      rw [lookup_dset_ne _ _ _ _ (Ne.symm hne)]
      exact h
    · intro tb x _ htb
      exact addDistrict_preserve _ _ _ _ _ htb
  · intro tb x _ htb
    exact lookup_dsetdefault_keep _ _ _ _ _ htb

/-- C1 amended: district tokens, site tokens and all synonym tokens are
inserted with insert-if-absent (a colliding later insertion is silently
dropped), but each region's own token is inserted with a plain
assignment that overwrites any earlier entry. Consequently, once a token
is bound by an earlier part of the dataset (for example a site or
district name colliding with an earlier-declared district or region
token), resolution returns that earlier entry provided no later region's
own primary key carries the same token. -/
theorem C1_amended (m1 m2 : LocationMap) (t : String) (e : LocEntry)
    (h1 : (get_location_lookup_table m1).lookup t = some e)
    (h2 : ∀ p ∈ m2, make_token p.1 ≠ t) :
    (get_location_lookup_table (m1 ++ m2)).lookup t = some e := by
  unfold get_location_lookup_table at h1 ⊢
  rw [List.foldl_append]
  exact foldl_inv (fun tb : List (String × LocEntry) => tb.lookup t = some e) addRegion m2 _ h1
    (fun tb pr hpr htb => addRegion_preserve pr tb t e htb (h2 pr hpr))

theorem C1_amended_witness :
    (get_location_lookup_table [("r1", c1R1)]).lookup "t"
      = some (LocEntry.district { name := "T1" } "R1")
    ∧ (get_location_lookup_table ([("r1", c1R1)] ++ [("r2", c1R2)])).lookup "t"
      = some (LocEntry.district { name := "T1" } "R1") := by
  constructor
  · decide
  · refine C1_amended [("r1", c1R1)] [("r2", c1R2)] "t"
      (LocEntry.district { name := "T1" } "R1") (by decide) ?_
    intro p hp
    rcases List.mem_cons.mp hp with rfl | hp
    · decide
    · exact absurd hp (List.not_mem_nil p)

/-! ### Claim C7: ancestor stamps on district and site entries -/

/-- Provenance of an entry of the flattened location table: district
entries are stamped with the name of a region of the dataset that
contains them, site entries with the names of a containing region and
district. -/
def GoodEntry (map : LocationMap) : LocEntry → Prop
  | LocEntry.district info a1 => ∃ q ∈ map, a1 = q.2.name ∧ ∃ r ∈ q.2.admin2, r.2 = info
  | LocEntry.site info a1 a2 => ∃ q ∈ map, ∃ r ∈ q.2.admin2, a1 = q.2.name ∧ a2 = r.2.name
      ∧ ∃ u ∈ r.2.unclassified, u.2 = info
  | _ => True

theorem mem_foldl_dsetdefault {α : Type} (v : α) (f : String → String)
    (keys : List String) :
    ∀ (init : List (String × α)) (p : String × α),
      p ∈ keys.foldl (fun d k => dsetdefault d (f k) v) init → p.2 = v ∨ p ∈ init := by
  induction keys with
  | nil =>
    intro init p hp
    exact Or.inr hp
  | cons k ks ih =>
    intro init p hp
    rw [List.foldl_cons] at hp
    rcases ih _ p hp with h | h
    · exact Or.inl h
    · rcases mem_dsetdefault _ _ _ _ h with rfl | h
      · exact Or.inl rfl
      · exact Or.inr h

theorem mem_addSite (a1 a2 : String) (table : List (String × LocEntry))
    (r : String × SiteInfo) (p : String × LocEntry) (hp : p ∈ addSite a1 a2 table r) :
    p.2 = LocEntry.site r.2 a1 a2 ∨ p ∈ table := by
  unfold addSite at hp
  rcases mem_foldl_dsetdefault _ _ _ _ _ hp with h | h
  · exact Or.inl h
  · rcases mem_dsetdefault _ _ _ _ h with rfl | h
    · exact Or.inl rfl
    · exact Or.inr h

theorem mem_foldl_addSite (a1 a2 : String) (sites : List (String × SiteInfo)) :
    ∀ (init : List (String × LocEntry)) (p : String × LocEntry),
      p ∈ sites.foldl (addSite a1 a2) init →
      (∃ r ∈ sites, p.2 = LocEntry.site r.2 a1 a2) ∨ p ∈ init := by
  induction sites with
  | nil =>
    intro init p hp
    exact Or.inr hp
  | cons r rs ih =>
    intro init p hp
    rw [List.foldl_cons] at hp
    rcases ih _ p hp with h | h
    · obtain ⟨r', hr', h2⟩ := h
      exact Or.inl ⟨r', List.mem_cons_of_mem _ hr', h2⟩
    · rcases mem_addSite _ _ _ _ _ h with h | h
      · exact Or.inl ⟨r, List.mem_cons_self _ _, h⟩
      · exact Or.inr h

theorem mem_addDistrict (info1 : RegionInfo) (table : List (String × LocEntry))
    (q : String × DistrictInfo) (p : String × LocEntry)
    (hp : p ∈ addDistrict info1 table q) :
    p.2 = LocEntry.district q.2 info1.name
    ∨ (∃ r ∈ q.2.unclassified, p.2 = LocEntry.site r.2 info1.name q.2.name)
    ∨ p ∈ table := by
  unfold addDistrict at hp
  rcases mem_foldl_dsetdefault _ _ _ _ _ hp with h | h
  · exact Or.inl h
  · rcases mem_foldl_addSite _ _ _ _ _ h with h | h
    · exact Or.inr (Or.inl h)
    · rcases mem_dsetdefault _ _ _ _ h with rfl | h
      · exact Or.inl rfl
      · exact Or.inr (Or.inr h)

theorem mem_foldl_addDistrict (info1 : RegionInfo) (ds : List (String × DistrictInfo)) :
    ∀ (init : List (String × LocEntry)) (p : String × LocEntry),
      p ∈ ds.foldl (addDistrict info1) init →
      (∃ q ∈ ds, p.2 = LocEntry.district q.2 info1.name)
      ∨ (∃ q ∈ ds, ∃ r ∈ q.2.unclassified, p.2 = LocEntry.site r.2 info1.name q.2.name)
      ∨ p ∈ init := by
  induction ds with
  | nil =>
    intro init p hp
    exact Or.inr (Or.inr hp)
  | cons q qs ih =>
    intro init p hp
    rw [List.foldl_cons] at hp
    rcases ih _ p hp with h | h | h
    · obtain ⟨q', hq', h2⟩ := h
      exact Or.inl ⟨q', List.mem_cons_of_mem _ hq', h2⟩
    · obtain ⟨q', hq', h2⟩ := h
      exact Or.inr (Or.inl ⟨q', List.mem_cons_of_mem _ hq', h2⟩)
    · rcases mem_addDistrict _ _ _ _ h with h | h | h
      · exact Or.inl ⟨q, List.mem_cons_self _ _, h⟩
      · obtain ⟨r, hr, h2⟩ := h
        exact Or.inr (Or.inl ⟨q, List.mem_cons_self _ _, r, hr, h2⟩)
      · exact Or.inr (Or.inr h)

theorem mem_addRegion (table : List (String × LocEntry)) (pr : String × RegionInfo)
    (p : String × LocEntry) (hp : p ∈ addRegion table pr) :
    p.2 = LocEntry.region pr.2
    ∨ (∃ q ∈ pr.2.admin2, p.2 = LocEntry.district q.2 pr.2.name)
    ∨ (∃ q ∈ pr.2.admin2, ∃ r ∈ q.2.unclassified, p.2 = LocEntry.site r.2 pr.2.name q.2.name)
    ∨ p ∈ table := by
  unfold addRegion at hp
  rcases mem_foldl_dsetdefault _ _ _ _ _ hp with h | h
  · exact Or.inl h
  · rcases mem_foldl_addDistrict _ _ _ _ h with h | h | h
    · exact Or.inr (Or.inl h)
    · exact Or.inr (Or.inr (Or.inl h))
    · rcases mem_dset _ _ _ _ h with rfl | h
      · exact Or.inl rfl
      · exact Or.inr (Or.inr (Or.inr h))

theorem locTable_good (map : LocationMap) :
    ∀ p ∈ get_location_lookup_table map, GoodEntry map p.2 := by
  unfold get_location_lookup_table
  refine foldl_inv (fun tb : List (String × LocEntry) => ∀ p ∈ tb, GoodEntry map p.2)
    addRegion map [] ?_ ?_
  · intro p hp
    exact absurd hp (List.not_mem_nil p)
  · intro tb pr hpr htb p hp
    rcases mem_addRegion tb pr p hp with h | h | h | h
    · rw [h]
      trivial
    · obtain ⟨q, hq, h2⟩ := h
      rw [h2]
      exact ⟨pr, hpr, rfl, q, hq, rfl⟩
    · obtain ⟨q, hq, r, hr, h2⟩ := h
      rw [h2]
      exact ⟨pr, hpr, q, hq, rfl, rfl, r, hr, rfl⟩
    · exact htb p h

/-- C7: after the location lookup table is built, every district entry
reachable through it carries `admin1` equal to its containing region's
display name, and every unclassified-site entry carries `admin1` and
`admin2` equal to its containing region's and district's display names
respectively. -/
theorem C7_ancestor_stamps (map : LocationMap) (t : String) :
    (∀ info a1, (get_location_lookup_table map).lookup t
        = some (LocEntry.district info a1) →
      ∃ q ∈ map, a1 = q.2.name ∧ ∃ r ∈ q.2.admin2, r.2 = info)
    ∧ (∀ info a1 a2, (get_location_lookup_table map).lookup t
        = some (LocEntry.site info a1 a2) →
      ∃ q ∈ map, ∃ r ∈ q.2.admin2, a1 = q.2.name ∧ a2 = r.2.name
        ∧ ∃ u ∈ r.2.unclassified, u.2 = info) := by
  constructor
  · intro info a1 h
    exact locTable_good map _ (lookup_mem _ _ _ h)
  · intro info a1 a2 h
    exact locTable_good map _ (lookup_mem _ _ _ h)

theorem C7_witness :
    ∃ q ∈ c4Map, "Bari" = q.2.name
      ∧ ∃ r ∈ q.2.admin2, r.2 = ({ name := "Bosaso" } : DistrictInfo) :=
  (C7_ancestor_stamps c4Map "bosaso").1 { name := "Bosaso" } "Bari" (by decide)
